import Mathlib

namespace Pmctl

/-!
# Verification of pmctl core logic

A shallow embedding of the core logic of `pmctl` (a Postman CLI client):

* `src/pmctl/cli.py` — `_find_requests` (collection tree search),
  `_resolve_and_get_environment` (environment resolution),
  `environments_show` (variable masking / JSON output),
* `src/pmctl/config.py` — profile registry load/save and mutation.

Python strings become `String` (lists of characters), Python dicts holding
profiles become insertion-ordered association lists (Python 3.7+ dicts are
insertion ordered, which the code relies on via `next(iter(...))`), Python
exceptions become `Except`/`Option` results.
-/

/-! ## Case-insensitive substring search

Models the Python test `needle in haystack` on lowered strings.
`lowerStr` stands in for `str.lower()` (the repository's data is ASCII;
both lower-case ASCII letters identically). -/

/-- Models Python `str.lower()`: lower-case every character. -/
def lowerStr (s : String) : String := String.mk (s.data.map Char.toLower)

/-- Predicate `containsSub n h` models Python `n in h` for strings: `n` occurs as a
contiguous (possibly empty) substring of `h`. -/
def containsSub (needle : List Char) : List Char → Bool
  | [] => needle.isEmpty
  | c :: t => needle.isPrefixOf (c :: t) || containsSub needle t

/-- Models `keyword in s.lower()` where `keyword = q.lower()`:
case-insensitive substring test, as in `_find_requests`. -/
def containsCI (needle hay : String) : Bool :=
  containsSub (lowerStr needle).data (lowerStr hay).data

/-! ## Collection items

A collection item (`cli.py` treats a dict with an `"item"` key as a folder,
anything else as a request; the request's method/url ride along untouched). -/

/-- A node of the collection tree: a folder with ordered children, or a leaf
request (name, method, raw url — the fields `_find_requests` and `_build_tree`
read). -/
inductive Item where
  | folder (name : String) (children : List Item)
  | request (name : String) (method : String) (url : String)

/-- The `item["name"]` field. -/
def Item.name : Item → String
  | .folder n _ => n
  | .request n _ _ => n

/-- Path accumulation of `_find_requests`:
`f"{prefix}/{item['name']}" if prefix else item["name"]`. -/
def joinPath (pre n : String) : String :=
  if pre = "" then n else pre ++ "/" ++ n

/-- Embedding of `_find_requests(items, name, prefix="")` (cli.py:392-402):
walk the item list in order; a folder recurses with the extended path; a
request is emitted when the lowered query occurs in its lowered name. -/
def findRequests : List Item → String → String → List (String × Item)
  | [], _, _ => []
  | .folder n cs :: rest, q, pre =>
      findRequests cs q (joinPath pre n) ++ findRequests rest q pre
  | .request n m u :: rest, q, pre =>
      (if containsCI q n then [(joinPath pre n, .request n m u)] else [])
        ++ findRequests rest q pre

/-- Modelled from the spec's words, for comparison with `findRequests`:
the depth-first, declaration-order enumeration of every leaf request together
with its full path (ancestor folder names joined with `"/"`, no leading
separator at the root). -/
def allRequests : List Item → String → List (String × Item)
  | [], _ => []
  | .folder n cs :: rest, pre =>
      allRequests cs (joinPath pre n) ++ allRequests rest pre
  | .request n m u :: rest, pre =>
      (joinPath pre n, .request n m u) :: allRequests rest pre

/-! ## Environment resolution (`_resolve_and_get_environment`, cli.py:408-424)

The API client is abstracted as `getEnv : String → Option Environment`
(`client.get_environment`; `none` models a raised exception) together with
`envs : List Environment` (`client.list_environments`, already scoped to the
requested workspace by the client call). -/

/-- One variable of an environment (`{key, value, type}` as read by
`environments_show`). -/
structure EnvVar where
  key : String
  value : String
  vtype : String
deriving DecidableEq

/-- A remote environment as the resolver and `environments_show` see it. -/
structure Environment where
  id : String
  name : String
  values : List EnvVar
deriving DecidableEq

/-- Outcome of `_resolve_and_get_environment`: success, the two
`typer.BadParameter` failures, or an exception escaping from the second
(uncaught) `get_environment` call. -/
inductive ResolveResult where
  | ok (e : Environment)
  | ambiguous (candidates : List (String × String))
  | notFound (input : String)
  | fetchFailed
deriving DecidableEq

/-- The name matches computed on the fallback path:
`[e for e in environments if e["name"].lower() == id_or_name.lower()]`. -/
def matchesOf (envs : List Environment) (idOrName : String) : List Environment :=
  envs.filter (fun e => lowerStr e.name = lowerStr idOrName)

/-- Embedding of `_resolve_and_get_environment(client, id_or_name, workspace_id)`:
try the input as an ID; on any failure, fall back to case-insensitive
name matching over the listed environments. -/
def resolveEnvironment (getEnv : String → Option Environment)
    (envs : List Environment) (idOrName : String) : ResolveResult :=
  match getEnv idOrName with
  | some e => .ok e
  | none =>
    match matchesOf envs idOrName with
    | [m] =>
      match getEnv m.id with
      | some e => .ok e
      | none => .fetchFailed
    | [] => .notFound idOrName
    | ms => .ambiguous (ms.map (fun m => (m.name, m.id)))

/-! ## Profile registry (`config.py`)

`Config.profiles` is a Python dict `name -> Profile`; we embed it as an
insertion-ordered association list with unique keys, because the code relies
on insertion order (`next(iter(...))`). -/

/-- A Postman API key profile (config.py:17-23). -/
structure Profile where
  name : String
  api_key : String
  label : String
deriving DecidableEq

/-- The application configuration (config.py:26-31). -/
structure Config where
  profiles : List (String × Profile)
  default_profile : String
deriving DecidableEq

/-- Python exceptions raised by `config.py`, by kind: `FileNotFoundError`
(no config file), `tomllib.TOMLDecodeError`/`KeyError` (unparsable file),
`ValueError("No profiles found...")`, and the `ValueError` for a missing
profile (`available` records the listed names, empty where the source
message names none). -/
inductive ConfigError where
  | configNotFound
  | parseError
  | emptyRegistry
  | profileNotFound (requested : String) (available : List String)
deriving DecidableEq

instance {ε α : Type} [DecidableEq ε] [DecidableEq α] :
    DecidableEq (Except ε α) := fun x y =>
  match x, y with
  | .error e, .error f =>
      if h : e = f then .isTrue (h ▸ rfl)
      else .isFalse (fun hh => h (by injection hh))
  | .ok a, .ok b =>
      if h : a = b then .isTrue (h ▸ rfl)
      else .isFalse (fun hh => h (by injection hh))
  | .error _, .ok _ => .isFalse (fun hh => by injection hh)
  | .ok _, .error _ => .isFalse (fun hh => by injection hh)

/-- Dict lookup `d[k]` / `k in d`. -/
def alistLookup {α : Type} : List (String × α) → String → Option α
  | [], _ => none
  | (k, v) :: rest, key => if k = key then some v else alistLookup rest key

/-- Dict assignment `d[k] = v`: replace in place if the key exists
(keeping its position), else append. -/
def alistInsert : List (String × Profile) → String → Profile → List (String × Profile)
  | [], k, v => [(k, v)]
  | (k', v') :: rest, k, v =>
      if k' = k then (k, v) :: rest else (k', v') :: alistInsert rest k v

/-- Dict deletion `del d[k]` (keys are unique, so removing the first
occurrence is exact). -/
def alistErase : List (String × Profile) → String → List (String × Profile)
  | [], _ => []
  | (k', v') :: rest, k =>
      if k' = k then rest else (k', v') :: alistErase rest k

/-- The dict's key view, in insertion order (`d.keys()`). -/
def keysOf (ps : List (String × Profile)) : List String := ps.map Prod.fst

/-- The first key in insertion order, if any (`next(iter(d), ...)`). -/
def firstKey : List (String × Profile) → Option String
  | [] => none
  | (k, _) :: _ => some k

/-- Embedding of `Config.get_profile(name)` (config.py:33-41). Note the
Python `name or self.default_profile`: both `None` and the empty string
fall back to the default. -/
def getProfile (c : Config) (name : Option String) : Except ConfigError Profile :=
  let profileName :=
    match name with
    | none => c.default_profile
    | some s => if s = "" then c.default_profile else s
  match alistLookup c.profiles profileName with
  | some p => .ok p
  | none => .error (.profileNotFound profileName (keysOf c.profiles))

/-! ## The config file

`save_config` (config.py:75-91) writes the file by naive string
interpolation; `load_config` (config.py:49-72) reads it back with `tomllib`.
The file is a `String`; a missing file is `none` in `Option String`.

`tomllib` is an external library; we model it faithfully on the fragment of
TOML that `save_config` emits: lines `key = "value"` (basic strings, where a
stray quote, backslash or control character makes the real parser fail or
decode differently — such values are conservatively rejected, escape
sequences are not decoded) and table headers `[profiles.name]` with a bare
key name. Duplicate tables or keys are rejected, as in TOML. Each `key = ...`
line belongs to the most recent table header, or to the top level if none
preceded. -/

/-- A bare TOML key character: ASCII alphanumeric, `_`, or `-`. -/
def isBareKeyChar (c : Char) : Bool :=
  (65 ≤ c.toNat && c.toNat ≤ 90) || (97 ≤ c.toNat && c.toNat ≤ 122) ||
    (48 ≤ c.toNat && c.toNat ≤ 57) || c.toNat = 95 || c.toNat = 45

/-- A character that round-trips through an un-escaped TOML basic string:
not a quote, backslash, or control character (tab allowed). -/
def isTomlSafeChar (c : Char) : Bool :=
  c.toNat = 9 ||
    (32 ≤ c.toNat && !(c.toNat = 34) && !(c.toNat = 92) && !(c.toNat = 127))

/-- Split file contents into lines (inverse of `"\n".join(lines)`). -/
def splitOnNl : List Char → List (List Char)
  | [] => [[]]
  | c :: rest =>
    if c = '\n' then [] :: splitOnNl rest
    else
      match splitOnNl rest with
      | [] => [[c]]
      | l :: ls => (c :: l) :: ls

/-- Python `"\n".join(lines)`. -/
def joinNl : List (List Char) → List Char
  | [] => []
  | [l] => l
  | l :: ls => l ++ '\n' :: joinNl ls

/-- One parsed line of the config file. -/
inductive TomlLine where
  | blank
  | kv (k v : String)
  | sec (n : String)
deriving DecidableEq

/-- Parse a `key = "value"` line (exactly the shape `save_config` emits). -/
def parseKeyVal (l : List Char) : Option (String × String) :=
  let k := l.takeWhile isBareKeyChar
  match l.dropWhile isBareKeyChar with
  | ' ' :: '=' :: ' ' :: '"' :: r =>
    let v := r.takeWhile (fun c => c != '"')
    match r.dropWhile (fun c => c != '"') with
    | ['"'] =>
      if k ≠ [] ∧ v.all isTomlSafeChar then some (String.mk k, String.mk v)
      else none
    | _ => none
  | _ => none

/-- Parse a `[profiles.name]` table header with a bare-key name. -/
def parseSec (l : List Char) : Option String :=
  match l with
  | '[' :: r =>
    if "profiles.".data.isPrefixOf r then
      let r2 := r.drop 9
      let n := r2.takeWhile isBareKeyChar
      if n ≠ [] ∧ r2.dropWhile isBareKeyChar = [']'] then some (String.mk n)
      else none
    else none
  | _ => none

/-- Classify a single line; `none` is a parse failure of the whole file. -/
def classifyLine (l : List Char) : Option TomlLine :=
  if l = [] then some .blank
  else
    match parseKeyVal l with
    | some (k, v) => some (.kv k v)
    | none =>
      match parseSec l with
      | some n => some (.sec n)
      | none => none

/-- Classify every line, failing if any line fails. -/
def classifyLines : List (List Char) → Option (List TomlLine)
  | [] => some []
  | l :: ls =>
    match classifyLine l, classifyLines ls with
    | some t, some ts => some (t :: ts)
    | _, _ => none

/-- Group the `key = value` lines under the table header that precedes them
(or the top level if none does), skipping blank lines. Returns the top-level
pairs and the tables in declaration order. -/
def groupToml :
    List TomlLine → List (String × String) × List (String × List (String × String))
  | [] => ([], [])
  | .blank :: rest => groupToml rest
  | .kv k v :: rest =>
      let (kvs, secs) := groupToml rest
      ((k, v) :: kvs, secs)
  | .sec n :: rest =>
      let (kvs, secs) := groupToml rest
      ([], (n, kvs) :: secs)

/-- No key appears twice (TOML rejects duplicate keys/tables). -/
def nodupB : List String → Bool
  | [] => true
  | k :: ks => !(ks.contains k) && nodupB ks

/-- The structured content of a parsed config file: top-level keys and the
tables under `[profiles.*]`, in declaration order. -/
structure RawToml where
  top : List (String × String)
  sections : List (String × List (String × String))
deriving DecidableEq

/-- The modelled `tomllib.load`, restricted to the format `save_config`
emits. -/
def parseToml (s : String) : Option RawToml :=
  match classifyLines (splitOnNl s.data) with
  | none => none
  | some toks =>
    let (top, secs) := groupToml toks
    if nodupB (top.map Prod.fst) && nodupB (secs.map Prod.fst)
        && secs.all (fun sc => nodupB (sc.2.map Prod.fst)) then
      some ⟨top, secs⟩
    else none

/-- Rebuild `Profile` values from the parsed tables
(config.py:60-66: `api_key` is a mandatory key — `KeyError` otherwise —
`label` defaults to `""`). -/
def buildProfiles :
    List (String × List (String × String)) → Option (List (String × Profile))
  | [] => some []
  | (n, kvs) :: rest =>
    match alistLookup kvs "api_key", buildProfiles rest with
    | some key, some ps =>
        some ((n, Profile.mk n key ((alistLookup kvs "label").getD "")) :: ps)
    | _, _ => none

/-- Embedding of `load_config()` on given file contents (config.py:49-72):
parse, rebuild the profile dict, fail on zero profiles, and default
`default_profile` to the first-declared profile when the file has none. -/
def loadConfigStr (s : String) : Except ConfigError Config :=
  match parseToml s with
  | none => .error .parseError
  | some raw =>
    match buildProfiles raw.sections with
    | none => .error .parseError
    | some [] => .error .emptyRegistry
    | some ((k0, p0) :: rest) =>
        .ok ⟨(k0, p0) :: rest, (alistLookup raw.top "default_profile").getD k0⟩

/-- Full `load_config()` including the existence check (`FileNotFoundError`). -/
def loadConfigFS : Option String → Except ConfigError Config
  | none => .error .configNotFound
  | some s => loadConfigStr s

/-- One emitted `key = "value"` line (f-string interpolation, no escaping). -/
def kvLine (k v : String) : List Char :=
  k.data ++ ' ' :: '=' :: ' ' :: '"' :: (v.data ++ ['"'])

/-- One emitted `[profiles.name]` line. -/
def secLine (n : String) : List Char :=
  '[' :: ("profiles.".data ++ n.data ++ [']'])

/-- The lines `save_config` emits for one profile (config.py:84-89). -/
def profileLines (n : String) (p : Profile) : List (List Char) :=
  secLine n :: kvLine "api_key" p.api_key ::
    (if p.label = "" then [] else [kvLine "label" p.label]) ++ [[]]

/-- All lines `save_config` emits (config.py:79-89). -/
def saveLines (c : Config) : List (List Char) :=
  kvLine "default_profile" c.default_profile :: [] ::
    c.profiles.flatMap (fun kp => profileLines kp.1 kp.2)

/-- Embedding of `save_config(config)`: `"\n".join(lines)` written to the
file (config.py:91). -/
def saveConfig (c : Config) : String := String.mk (joinNl (saveLines c))

/-- The pure mutation inside `add_profile` (config.py:101-104): insert or
overwrite the entry, then make it the default if requested or if it is the
only profile. -/
def addProfileCore (c : Config) (name apiKey label : String)
    (setDefault : Bool) : Config :=
  let ps := alistInsert c.profiles name (Profile.mk name apiKey label)
  if setDefault || ps.length = 1 then ⟨ps, name⟩ else ⟨ps, c.default_profile⟩

/-- Embedding of `add_profile(name, api_key, label, set_default)`
(config.py:94-107) acting on the stored file: only `FileNotFoundError` is
caught (an existing file that loads with any other error propagates); on
success the new registry is saved. The second component is the file after
the call. -/
def addProfileFS (f : Option String) (name apiKey label : String)
    (setDefault : Bool) : Except ConfigError Config × Option String :=
  match loadConfigFS f with
  | .error .configNotFound =>
      let c := addProfileCore ⟨[], name⟩ name apiKey label setDefault
      (.ok c, some (saveConfig c))
  | .error e => (.error e, f)
  | .ok c0 =>
      let c := addProfileCore c0 name apiKey label setDefault
      (.ok c, some (saveConfig c))

/-- Embedding of `remove_profile(name)` (config.py:110-123): fail if the
name is absent (message without the available list), drop the entry, repair
the default from the first remaining key (or `""`), save. -/
def removeProfileFS (f : Option String) (name : String) :
    Except ConfigError Config × Option String :=
  match loadConfigFS f with
  | .error e => (.error e, f)
  | .ok c =>
    if (keysOf c.profiles).contains name then
      let ps := alistErase c.profiles name
      let d := if c.default_profile = name then (firstKey ps).getD ""
               else c.default_profile
      (.ok ⟨ps, d⟩, some (saveConfig ⟨ps, d⟩))
    else (.error (.profileNotFound name []), f)

/-- Embedding of `set_default_profile(name)` (config.py:126-136): fail with
the available names if absent, otherwise update the default and save. -/
def setDefaultProfileFS (f : Option String) (name : String) :
    Except ConfigError Config × Option String :=
  match loadConfigFS f with
  | .error e => (.error e, f)
  | .ok c =>
    if (keysOf c.profiles).contains name then
      (.ok ⟨c.profiles, name⟩, some (saveConfig ⟨c.profiles, name⟩))
    else (.error (.profileNotFound name (keysOf c.profiles)), f)

/-- The registry invariant of the spec: a non-empty registry's
`default_profile` names an existing profile. -/
def invariantB (c : Config) : Bool :=
  c.profiles.isEmpty || (keysOf c.profiles).contains c.default_profile

/-- The invariant holds of whatever the stored file loads to (vacuously true
when loading fails). -/
def loadedInvariant (f : Option String) : Bool :=
  match loadConfigFS f with
  | .ok c => invariantB c
  | .error _ => true

/-! ### Invariant preservation lemmas -/

/-! ### Round trip of `save_config` / `load_config`

`save_config` interpolates names and values into the file with no escaping,
so the round trip needs the interpolated strings to be inert: names must be
non-empty bare TOML keys and values must contain no quote, backslash or
control character. -/

/-- A profile name that survives interpolation into `[profiles.name]`. -/
def wfName (s : String) : Bool := !s.data.isEmpty && s.data.all isBareKeyChar

/-- A value that survives interpolation into `key = "value"`. -/
def wfValue (s : String) : Bool := s.data.all isTomlSafeChar

/-- A registry `save_config` can persist losslessly: at least one profile,
distinct names, each entry keyed by its profile's `name` field, names valid
bare keys, and all interpolated values inert. -/
def wfConfig (c : Config) : Bool :=
  !c.profiles.isEmpty && nodupB (keysOf c.profiles)
    && c.profiles.all (fun kp =>
        kp.1 = kp.2.name && wfName kp.1
          && wfValue kp.2.api_key && wfValue kp.2.label)
    && wfValue c.default_profile

/-- The tokens `classifyLines` recovers from one profile's emitted lines. -/
def profileToks (n : String) (p : Profile) : List TomlLine :=
  .sec n :: .kv "api_key" p.api_key ::
    (if p.label = "" then [] else [.kv "label" p.label]) ++ [.blank]

/-- The tables `parseToml` recovers from a saved registry. -/
def secsOf (ps : List (String × Profile)) :
    List (String × List (String × String)) :=
  ps.map (fun kp => (kp.1, ("api_key", kp.2.api_key) ::
    (if kp.2.label = "" then [] else [("label", kp.2.label)])))

/-- Well-formedness of a recovered token (what the parser guarantees). -/
def wfTok : TomlLine → Bool
  | .blank => true
  | .kv k v => wfName k && wfValue v
  | .sec n => wfName n

/-! ## `environments show` output (cli.py:460-502)

Formatted mode masks sensitive-looking variables before rendering
(cli.py:480-485); JSON mode (cli.py:474-476) prints the environment before
the masking loop runs. The `--full` flag only changes layout, not the
displayed value, so the model exposes the `(key, type, value)` content. -/

/-- The sensitivity test (cli.py:483):
`any(k in var["key"].lower() for k in ("password", "secret", "token", "key"))`. -/
def sensitiveKey (k : String) : Bool :=
  ["password", "secret", "token", "key"].any
    (fun needle => containsSub needle.data (lowerStr k).data)

/-- The replacement (cli.py:484):
`value[:4] + "****" if len(value) > 4 else "****"`. -/
def maskValue (v : String) : String :=
  if 4 < v.data.length then String.mk (v.data.take 4) ++ "****" else "****"

/-- The value shown for one variable in formatted mode (cli.py:481-485). -/
def displayValue (var : EnvVar) : String :=
  if sensitiveKey var.key then maskValue var.value else var.value

/-- What `environments_show` emits: raw JSON or the formatted
`(key, type, displayed value)` rows. -/
inductive EnvShowOutput where
  | jsonOut (env : Environment)
  | tableOut (rows : List (String × String × String))
deriving DecidableEq

/-- Embedding of the output of `environments_show`: JSON mode returns before
masking; formatted mode shows the masked values. -/
def environmentsShow (jsonMode : Bool) (env : Environment) : EnvShowOutput :=
  if jsonMode then .jsonOut env
  else .tableOut (env.values.map (fun var => (var.key, var.vtype, displayValue var)))

/-! ## The workspace-carrying profile variant (`profile set-workspace`) -/

/-- Modelled from the spec: the profile variant carrying a default workspace.
`cli.py` imports `set_profile_workspace` from `pmctl.config` and reads
`profile.workspace`, but `src/pmctl/config.py` defines only the variant
without workspace support, so this definition is not under `src/`. Spec:
"**Profile**: `{name: string, api_key: string, label: string,
default_workspace: string}`" — the field is named `workspace` as at its use
sites in cli.py. -/
structure WProfile where
  name : String
  api_key : String
  label : String
  workspace : String
deriving DecidableEq

/-- Modelled from the spec: the registry holding workspace-carrying
profiles (the Config Store reads/writes "name → API key, label, default
workspace"). -/
structure WConfig where
  profiles : List (String × WProfile)
  default_profile : String
deriving DecidableEq

/-- Replace the workspace field of the entry keyed `target`, leave the rest
alone. -/
def updateEntry (target wid : String) (kp : String × WProfile) :
    String × WProfile :=
  if kp.1 = target
  then (kp.1, WProfile.mk kp.2.name kp.2.api_key kp.2.label wid)
  else kp

/-- Modelled from the spec: `set_profile_workspace(name, workspace_id)`,
which the `profile set-workspace` command calls with `profile or ""`
(cli.py:124-132) — it "updates that field of the named (or default) profile"
and persists the returned registry via the Config Store; an absent name
fails with profile-not-found. -/
def setProfileWorkspace (stored : WConfig) (name workspaceId : String) :
    Except ConfigError WConfig :=
  let target := if name = "" then stored.default_profile else name
  match alistLookup stored.profiles target with
  | none => .error (.profileNotFound target (stored.profiles.map Prod.fst))
  | some _ =>
      .ok ⟨stored.profiles.map (updateEntry target workspaceId),
           stored.default_profile⟩

/-! ## Properties, claims, counterexamples and witnesses -/

theorem findRequests_eq_filter (items : List Item) (q pre : String) :
    findRequests items q pre
      = (allRequests items pre).filter (fun p => containsCI q p.2.name) := by
  induction items, q, pre using findRequests.induct with
  | case1 _ _ => simp [findRequests, allRequests]
  | case2 n cs rest q pre ih1 ih2 =>
      simp [findRequests, allRequests, List.filter_append, ih1, ih2]
  | case3 n m u rest q pre ih =>
      simp only [findRequests, allRequests, List.filter_cons, ih, Item.name]
      by_cases h : containsCI q n <;> simp [h]

/-- Claim **C1**: for every collection item tree and query, `_find_requests` returns
exactly the `(full_path, request_item)` pairs of the depth-first,
declaration-order enumeration of leaf requests whose own name contains the
query case-insensitively, with paths joined by `"/"` and no leading separator
at the root; in particular a root folder `"Auth"` with requests `"Login"` and
`"Logout"` under query `"log"` yields both, in order, with paths
`"Auth/Login"` and `"Auth/Logout"` (and a query matching nothing yields `[]`,
which is an instance of the filter equation). -/
theorem c1_findRequests_matches :
    (∀ (items : List Item) (q : String),
        findRequests items q ""
          = (allRequests items "").filter (fun p => containsCI q p.2.name))
      ∧ findRequests
          [Item.folder "Auth"
            [Item.request "Login" "POST" "u1", Item.request "Logout" "POST" "u2"]]
          "log" ""
          = [("Auth/Login", Item.request "Login" "POST" "u1"),
             ("Auth/Logout", Item.request "Logout" "POST" "u2")] := by
  refine ⟨fun items q => findRequests_eq_filter items q "", ?_⟩
  simp [findRequests, joinPath,
        show containsCI "log" "Login" = true from by decide,
        show containsCI "log" "Logout" = true from by decide]

/-- Claim **C2**: the resolver first tries the input as an ID and on success returns
that environment with no name matching attempted (the result does not depend
on the environment list); on fetch failure it filters the listed environments
by case-insensitive name equality: zero matches fail with not-found naming
the input, exactly one match is fetched and returned by its real ID, and two
or more matches fail with an ambiguous-match error enumerating every matching
`(name, id)` pair. -/
theorem c2_resolveEnvironment
    (getEnv : String → Option Environment) (envs : List Environment)
    (input : String) :
    (∀ e, getEnv input = some e →
        resolveEnvironment getEnv envs input = .ok e)
      ∧ (getEnv input = none → matchesOf envs input = [] →
          resolveEnvironment getEnv envs input = .notFound input)
      ∧ (∀ m e, getEnv input = none → matchesOf envs input = [m] →
          getEnv m.id = some e →
          resolveEnvironment getEnv envs input = .ok e)
      ∧ (getEnv input = none → 2 ≤ (matchesOf envs input).length →
          resolveEnvironment getEnv envs input
            = .ambiguous ((matchesOf envs input).map (fun m => (m.name, m.id)))) := by
  refine ⟨?_, ?_, ?_, ?_⟩
  · intro e h; simp [resolveEnvironment, h]
  · intro h hm; simp [resolveEnvironment, h, hm]
  · intro m e h hm hf; simp [resolveEnvironment, h, hm, hf]
  · intro h hlen
    match hm : matchesOf envs input with
    | [] => simp [hm] at hlen
    | [m] => simp [hm] at hlen
    | m1 :: m2 :: ms => simp [resolveEnvironment, h, hm]

/-- Witness for **C2**: two environments both named `"Prod"` (ids `e1`, `e2`)
and input `"prod"`, which is not a valid ID, resolve to an ambiguous-match
failure listing both `(name, id)` pairs; input `"e1"` (a literal ID) resolves
directly. -/
theorem c2_resolveEnvironment_witness :
    resolveEnvironment
        (fun s => if s = "e1" then some ⟨"e1", "Prod", []⟩
                  else if s = "e2" then some ⟨"e2", "Prod", []⟩ else none)
        [⟨"e1", "Prod", []⟩, ⟨"e2", "Prod", []⟩] "prod"
      = .ambiguous [("Prod", "e1"), ("Prod", "e2")]
    ∧ resolveEnvironment
        (fun s => if s = "e1" then some ⟨"e1", "Prod", []⟩
                  else if s = "e2" then some ⟨"e2", "Prod", []⟩ else none)
        [⟨"e1", "Prod", []⟩, ⟨"e2", "Prod", []⟩] "e1"
      = .ok ⟨"e1", "Prod", []⟩ := by
  constructor
  · have h := (c2_resolveEnvironment
        (fun s => if s = "e1" then some ⟨"e1", "Prod", []⟩
                  else if s = "e2" then some ⟨"e2", "Prod", []⟩ else none)
        [⟨"e1", "Prod", []⟩, ⟨"e2", "Prod", []⟩] "prod").2.2.2
        (by decide) (by decide)
    simpa using h
  · exact (c2_resolveEnvironment
        (fun s => if s = "e1" then some ⟨"e1", "Prod", []⟩
                  else if s = "e2" then some ⟨"e2", "Prod", []⟩ else none)
        [⟨"e1", "Prod", []⟩, ⟨"e2", "Prod", []⟩] "e1").1
        ⟨"e1", "Prod", []⟩ (by decide)

/-- Claim **C6 (amended)**: `get_profile(None)` returns the profile the default
name maps to (whenever the default maps to one); a supplied *non-empty* name
returns the named profile when present and otherwise fails with
profile-not-found carrying the list of available names; a supplied *empty*
name is treated like an absent one and falls back to the default. -/
theorem c6_getProfile_amended (c : Config) :
    (∀ p, alistLookup c.profiles c.default_profile = some p →
        getProfile c none = .ok p)
      ∧ (∀ s p, s ≠ "" → alistLookup c.profiles s = some p →
          getProfile c (some s) = .ok p)
      ∧ (∀ s, s ≠ "" → alistLookup c.profiles s = none →
          getProfile c (some s)
            = .error (.profileNotFound s (keysOf c.profiles)))
      ∧ getProfile c (some "") = getProfile c none := by
  refine ⟨?_, ?_, ?_, ?_⟩
  · intro p h; simp [getProfile, h]
  · intro s p hs h; simp [getProfile, hs, h]
  · intro s hs h; simp [getProfile, hs, h]
  · simp [getProfile]

/-- Counterexample for **C6** as stated: the claim says a supplied name that
does not exist fails with profile-not-found, but supplying the empty string
(which is not a key of the registry) silently returns the default profile
(Python `name or self.default_profile` treats `""` as absent). -/
theorem c6_getProfile_counterexample :
    alistLookup [("work", Profile.mk "work" "k1" "")] "" = none
      ∧ getProfile ⟨[("work", Profile.mk "work" "k1" "")], "work"⟩ (some "")
          = .ok (Profile.mk "work" "k1" "") :=
  ⟨rfl, rfl⟩

/-- Witness for **C6 (amended)**: on a concrete two-profile registry, the
default is returned for `None`, a present name is returned, and an absent
name fails carrying the available names. -/
theorem c6_getProfile_witness :
    getProfile ⟨[("work", Profile.mk "work" "k1" ""),
                 ("personal", Profile.mk "personal" "k2" "x")], "work"⟩ none
      = .ok (Profile.mk "work" "k1" "")
    ∧ getProfile ⟨[("work", Profile.mk "work" "k1" ""),
                   ("personal", Profile.mk "personal" "k2" "x")], "work"⟩
        (some "ghost")
      = .error (.profileNotFound "ghost" ["work", "personal"]) := by
  constructor
  · exact (c6_getProfile_amended
      ⟨[("work", Profile.mk "work" "k1" ""),
        ("personal", Profile.mk "personal" "k2" "x")], "work"⟩).1
      (Profile.mk "work" "k1" "") (by decide)
  · exact (c6_getProfile_amended
      ⟨[("work", Profile.mk "work" "k1" ""),
        ("personal", Profile.mk "personal" "k2" "x")], "work"⟩).2.2.1
      "ghost" (by decide) (by decide)

/-- Claim **C4 (amended)**: when no config file exists yet, `add_profile` succeeds
for every name, api_key, label and `set_default` flag, and the resulting
(and saved) registry has the new name as its default. -/
theorem c4_addProfile_amended (name apiKey label : String) (setDefault : Bool) :
    ∃ c, addProfileFS none name apiKey label setDefault
        = (.ok c, some (saveConfig c)) ∧ c.default_profile = name := by
  refine ⟨⟨[(name, Profile.mk name apiKey label)], name⟩, ?_, rfl⟩
  simp [addProfileFS, loadConfigFS, addProfileCore, alistInsert]

/-- Counterexample for **C4** as stated: "the registry is empty (no stored
profiles)" also covers a config file that exists but defines zero profiles —
the very file `save_config` writes after the last profile is removed. On that
state `load_config` raises `ValueError` ("No profiles found"), which
`add_profile` does not catch (it catches only `FileNotFoundError`), so
`add_profile` fails instead of succeeding. -/
theorem c4_addProfile_counterexample :
    loadConfigFS (some (saveConfig ⟨[], ""⟩)) = .error .emptyRegistry
      ∧ (addProfileFS (some (saveConfig ⟨[], ""⟩)) "work" "k1" "" true).1
          = .error .emptyRegistry := by
  decide

theorem firstKey_mem {ps : List (String × Profile)} {k : String}
    (h : firstKey ps = some k) : k ∈ keysOf ps := by
  match ps with
  | [] => simp [firstKey] at h
  | (k', p) :: rest =>
      simp [firstKey] at h
      simp [keysOf, h]

theorem mem_keys_alistErase {ps : List (String × Profile)} {k name : String}
    (hk : k ∈ keysOf ps) (hne : k ≠ name) :
    k ∈ keysOf (alistErase ps name) := by
  induction ps with
  | nil => simp [keysOf] at hk
  | cons hd tl ih =>
      obtain ⟨k', p⟩ := hd
      simp only [keysOf, List.map_cons, List.mem_cons] at hk
      by_cases h : k' = name
      · simp only [alistErase, if_pos h]
        rcases hk with rfl | hk
        · exact absurd h hne
        · exact hk
      · simp only [alistErase, if_neg h, keysOf, List.map_cons, List.mem_cons]
        rcases hk with rfl | hk
        · exact Or.inl rfl
        · exact Or.inr (ih hk)

theorem mem_keys_alistInsert_self (ps : List (String × Profile)) (name : String)
    (p : Profile) : name ∈ keysOf (alistInsert ps name p) := by
  induction ps with
  | nil => simp [alistInsert, keysOf]
  | cons hd tl ih =>
      obtain ⟨k', p'⟩ := hd
      by_cases h : k' = name
      · simp [alistInsert, if_pos h, keysOf]
      · simp only [alistInsert, if_neg h, keysOf, List.map_cons, List.mem_cons]
        exact Or.inr ih

theorem mem_keys_alistInsert_of_mem {ps : List (String × Profile)}
    {k : String} (name : String) (p : Profile) (hk : k ∈ keysOf ps) :
    k ∈ keysOf (alistInsert ps name p) := by
  induction ps with
  | nil => simp [keysOf] at hk
  | cons hd tl ih =>
      obtain ⟨k', p'⟩ := hd
      simp only [keysOf, List.map_cons, List.mem_cons] at hk
      by_cases h : k' = name
      · simp only [alistInsert, if_pos h, keysOf, List.map_cons, List.mem_cons]
        rcases hk with rfl | hk
        · exact Or.inl h
        · exact Or.inr hk
      · simp only [alistInsert, if_neg h, keysOf, List.map_cons, List.mem_cons]
        rcases hk with rfl | hk
        · exact Or.inl rfl
        · exact Or.inr (ih hk)

theorem alistInsert_ne_nil (ps : List (String × Profile)) (name : String)
    (p : Profile) : alistInsert ps name p ≠ [] := by
  match ps with
  | [] => simp [alistInsert]
  | (k', p') :: rest =>
      by_cases h : k' = name <;> simp [alistInsert, h]

theorem invariantB_iff (c : Config) :
    invariantB c = true
      ↔ c.profiles = [] ∨ c.default_profile ∈ keysOf c.profiles := by
  simp [invariantB, List.isEmpty_iff, List.elem_iff, List.contains]

theorem alistErase_eq_nil {ps : List (String × Profile)} {name : String}
    (hmem : name ∈ keysOf ps) (h : alistErase ps name = []) :
    ∃ p, ps = [(name, p)] := by
  match ps with
  | [] => simp [keysOf] at hmem
  | (k, v) :: rest =>
      by_cases hk : k = name
      · simp only [alistErase, if_pos hk] at h
        exact ⟨v, by simp [h, hk]⟩
      · simp [alistErase, if_neg hk] at h

theorem invariantB_addProfileCore (c : Config) (name apiKey label : String)
    (setDefault : Bool)
    (hc : c.profiles = [] ∨ c.default_profile ∈ keysOf c.profiles) :
    invariantB (addProfileCore c name apiKey label setDefault) = true := by
  unfold addProfileCore
  by_cases h : (setDefault
      || (alistInsert c.profiles name (Profile.mk name apiKey label)).length = 1 : Bool)
  · simp only [if_pos h, invariantB_iff]
    exact Or.inr (mem_keys_alistInsert_self _ _ _)
  · simp only [if_neg h, invariantB_iff]
    rcases hc with hnil | hmem
    · exfalso
      apply h
      simp [hnil, alistInsert]
    · exact Or.inr (mem_keys_alistInsert_of_mem _ _ hmem)

/-- Claim **C5**: on any stored file whose loaded registry satisfies the invariant
(non-empty implies the default names an existing profile), a successful
`remove_profile` yields a registry that satisfies the invariant again and
whose default is the empty string whenever no profiles remain; successful
`add_profile` and `set_default_profile` preserve the invariant as well. -/
theorem c5_invariant_preserved (f : Option String) (name apiKey label : String)
    (setDefault : Bool) (c' : Config) (f' : Option String) :
    (loadedInvariant f = true → removeProfileFS f name = (.ok c', f') →
        invariantB c' = true ∧ (c'.profiles = [] → c'.default_profile = ""))
      ∧ (loadedInvariant f = true →
          addProfileFS f name apiKey label setDefault = (.ok c', f') →
          invariantB c' = true)
      ∧ (setDefaultProfileFS f name = (.ok c', f') → invariantB c' = true) := by
  refine ⟨?_, ?_, ?_⟩
  · intro hinv hrun
    unfold removeProfileFS at hrun
    cases hload : loadConfigFS f with
    | error e => rw [hload] at hrun; simp at hrun
    | ok c =>
      rw [hload] at hrun
      have hc : invariantB c = true := by
        unfold loadedInvariant at hinv
        rw [hload] at hinv
        exact hinv
      by_cases hmem : ((keysOf c.profiles).contains name : Bool)
      · have hmem' : name ∈ keysOf c.profiles := List.elem_iff.mp hmem
        simp only [hmem, if_true] at hrun
        obtain ⟨h1, -⟩ := Prod.mk.injEq .. ▸ hrun
        replace h1 : c' = ⟨alistErase c.profiles name,
            if c.default_profile = name then (firstKey (alistErase c.profiles name)).getD ""
            else c.default_profile⟩ := by
          cases h1
          rfl
        subst h1
        constructor
        · rw [invariantB_iff]
          cases hps : alistErase c.profiles name with
          | nil => exact Or.inl (by simp [hps])
          | cons hd tl =>
            right
            by_cases hd' : c.default_profile = name
            · simp only [hd', if_pos rfl, hps]
              exact firstKey_mem (by simp [firstKey])
            · simp only [if_neg hd']
              have hne : c.profiles ≠ [] := by
                intro hnil
                simp [keysOf, hnil] at hmem'
              have hdef : c.default_profile ∈ keysOf c.profiles := by
                rcases (invariantB_iff c).mp hc with h | h
                · exact absurd h hne
                · exact h
              rw [← hps]
              exact mem_keys_alistErase hdef hd'
        · intro hnil
          obtain ⟨p, hp⟩ := alistErase_eq_nil hmem' hnil
          have hdn : c.default_profile = name := by
            rcases (invariantB_iff c).mp hc with h | h
            · rw [h] at hmem'
              simp [keysOf] at hmem'
            · rw [hp] at h
              simpa [keysOf] using h
          have h0 : alistErase c.profiles name = [] := hnil
          simp [hdn, h0, firstKey]
      · have hmem2 : ¬ name ∈ keysOf c.profiles := fun h => hmem (List.elem_iff.mpr h)
        simp [hmem2] at hrun
  · intro hinv hrun
    unfold addProfileFS at hrun
    cases hload : loadConfigFS f with
    | error e =>
      rw [hload] at hrun
      cases e with
      | configNotFound =>
        simp only at hrun
        obtain ⟨h1, -⟩ := Prod.mk.injEq .. ▸ hrun
        replace h1 : c' = addProfileCore ⟨[], name⟩ name apiKey label setDefault := by
          cases h1
          rfl
        subst h1
        exact invariantB_addProfileCore _ _ _ _ _ (Or.inl rfl)
      | parseError => simp at hrun
      | emptyRegistry => simp at hrun
      | profileNotFound a b => simp at hrun
    | ok c =>
      rw [hload] at hrun
      simp only at hrun
      obtain ⟨h1, -⟩ := Prod.mk.injEq .. ▸ hrun
      replace h1 : c' = addProfileCore c name apiKey label setDefault := by
        cases h1
        rfl
      subst h1
      apply invariantB_addProfileCore
      rw [← invariantB_iff]
      unfold loadedInvariant at hinv
      rw [hload] at hinv
      exact hinv
  · intro hrun
    unfold setDefaultProfileFS at hrun
    cases hload : loadConfigFS f with
    | error e => rw [hload] at hrun; simp at hrun
    | ok c =>
      rw [hload] at hrun
      by_cases hmem : ((keysOf c.profiles).contains name : Bool)
      · simp only [hmem, if_true] at hrun
        obtain ⟨h1, -⟩ := Prod.mk.injEq .. ▸ hrun
        replace h1 : c' = ⟨c.profiles, name⟩ := by
          cases h1
          rfl
        subst h1
        rw [invariantB_iff]
        exact Or.inr (List.elem_iff.mp hmem)
      · have hmem2 : ¬ name ∈ keysOf c.profiles := fun h => hmem (List.elem_iff.mpr h)
        simp [hmem2] at hrun

/-- Witness for **C5**: removing the default profile `"work"` from a stored
two-profile file leaves a registry satisfying the invariant. -/
theorem c5_invariant_preserved_witness :
    invariantB ⟨[("personal", Profile.mk "personal" "k2" "")], "personal"⟩ = true
      ∧ (⟨[("personal", Profile.mk "personal" "k2" "")], "personal"⟩ : Config).profiles ≠ [] :=
  ⟨((c5_invariant_preserved
      (some (saveConfig ⟨[("work", Profile.mk "work" "k1" ""),
                          ("personal", Profile.mk "personal" "k2" "")], "work"⟩))
      "work" "" "" false
      ⟨[("personal", Profile.mk "personal" "k2" "")], "personal"⟩
      (some (saveConfig ⟨[("personal", Profile.mk "personal" "k2" "")], "personal"⟩))).1
      (by decide) (by decide)).1,
    by decide⟩

theorem bareKeyChar_isTomlSafe {c : Char} (h : isBareKeyChar c = true) :
    isTomlSafeChar c = true := by
  simp only [isBareKeyChar, Bool.or_eq_true, Bool.and_eq_true,
    decide_eq_true_eq] at h
  simp only [isTomlSafeChar, Bool.or_eq_true, Bool.and_eq_true,
    Bool.not_eq_true', decide_eq_true_eq, decide_eq_false_iff_not]
  omega

theorem bareKeyChar_ne_nl {c : Char} (h : isBareKeyChar c = true) :
    c ≠ '\n' := by
  intro heq
  subst heq
  exact absurd h (by decide)

theorem tomlSafeChar_ne_nl {c : Char} (h : isTomlSafeChar c = true) :
    c ≠ '\n' := by
  intro heq
  subst heq
  exact absurd h (by decide)

theorem tomlSafeChar_ne_quote {c : Char} (h : isTomlSafeChar c = true) :
    (c != '"') = true := by
  rw [bne_iff_ne]
  intro heq
  subst heq
  exact absurd h (by decide)

theorem wfName_wfValue {s : String} (h : wfName s = true) : wfValue s = true := by
  simp only [wfName, Bool.and_eq_true, List.all_eq_true] at h
  simp only [wfValue, List.all_eq_true]
  exact fun c hc => bareKeyChar_isTomlSafe (h.2 c hc)

theorem splitOnNl_no_nl {l : List Char} (h : ∀ ch ∈ l, ch ≠ '\n') :
    splitOnNl l = [l] := by
  induction l with
  | nil => rfl
  | cons c rest ih =>
      rw [splitOnNl, if_neg (h c (by simp)), ih (fun x hx => h x (by simp [hx]))]

theorem splitOnNl_append {l : List Char} (cs : List Char)
    (h : ∀ ch ∈ l, ch ≠ '\n') :
    splitOnNl (l ++ '\n' :: cs) = l :: splitOnNl cs := by
  induction l with
  | nil => simp [splitOnNl]
  | cons c rest ih =>
      rw [List.cons_append, splitOnNl, if_neg (h c (by simp)),
        ih (fun x hx => h x (by simp [hx]))]

theorem splitOnNl_joinNl {ls : List (List Char)} (hne : ls ≠ [])
    (h : ∀ l ∈ ls, ∀ ch ∈ l, ch ≠ '\n') : splitOnNl (joinNl ls) = ls := by
  induction ls with
  | nil => exact absurd rfl hne
  | cons l rest ih =>
      cases rest with
      | nil => exact splitOnNl_no_nl (h l (by simp))
      | cons l2 rest2 =>
          rw [show joinNl (l :: l2 :: rest2) = l ++ '\n' :: joinNl (l2 :: rest2)
              from rfl]
          rw [splitOnNl_append _ (h l (by simp))]
          rw [ih (by simp) (fun x hx => h x (by simp [hx]))]

theorem takeWhile_append_cons {p : Char → Bool} {xs : List Char} (y : Char)
    (ys : List Char) (hx : ∀ a ∈ xs, p a = true) (hy : p y = false) :
    (xs ++ y :: ys).takeWhile p = xs
      ∧ (xs ++ y :: ys).dropWhile p = y :: ys := by
  induction xs with
  | nil => simp [List.takeWhile_cons, List.dropWhile_cons, hy]
  | cons a t ih =>
      have ha : p a = true := hx a (by simp)
      have := ih (fun b hb => hx b (by simp [hb]))
      simp [List.takeWhile_cons, List.dropWhile_cons, ha, this.1, this.2]

theorem isPrefixOf_append_self (xs ys : List Char) :
    xs.isPrefixOf (xs ++ ys) = true := by
  induction xs with
  | nil => simp [List.isPrefixOf]
  | cons a t ih => simp [List.isPrefixOf, ih]

theorem wfName_data_ne_nil {s : String} (h : wfName s = true) : s.data ≠ [] := by
  intro h0
  rw [wfName, h0] at h
  exact absurd h (by decide)

theorem wfName_all_bare {s : String} (h : wfName s = true) :
    ∀ a ∈ s.data, isBareKeyChar a = true := by
  simp only [wfName, Bool.and_eq_true, List.all_eq_true] at h
  exact h.2

theorem wfValue_all_safe {s : String} (h : wfValue s = true) :
    ∀ a ∈ s.data, isTomlSafeChar a = true := by
  simp only [wfValue, List.all_eq_true] at h
  exact h

theorem parseKeyVal_kvLine {k v : String} (hk : wfName k = true)
    (hv : wfValue v = true) : parseKeyVal (kvLine k v) = some (k, v) := by
  obtain ⟨ht1, hd1⟩ := takeWhile_append_cons (p := isBareKeyChar) ' '
    ('=' :: ' ' :: '"' :: (v.data ++ ['"'])) (wfName_all_bare hk) (by decide)
  obtain ⟨ht2, hd2⟩ := takeWhile_append_cons (p := fun c => c != '"') '"' []
    (fun a ha => tomlSafeChar_ne_quote (wfValue_all_safe hv a ha)) (by decide)
  unfold parseKeyVal kvLine
  simp only [ht1, hd1, ht2, hd2]
  rw [if_pos ⟨wfName_data_ne_nil hk, hv⟩]

theorem parseSec_secLine {n : String} (hn : wfName n = true) :
    parseSec (secLine n) = some n := by
  obtain ⟨ht, hd⟩ := takeWhile_append_cons (p := isBareKeyChar) ']' []
    (wfName_all_bare hn) (by decide)
  unfold parseSec secLine
  rw [show "profiles.".data ++ n.data ++ [']']
      = "profiles.".data ++ (n.data ++ ']' :: []) from by simp]
  simp only [isPrefixOf_append_self, if_true]
  rw [show ("profiles.".data ++ (n.data ++ ']' :: [])).drop 9
      = ("profiles.".data ++ (n.data ++ ']' :: [])).drop ("profiles.".data).length
      from rfl]
  rw [List.drop_left]
  simp only [ht, hd]
  rw [if_pos ⟨wfName_data_ne_nil hn, trivial⟩]

theorem parseKeyVal_secLine (n : String) : parseKeyVal (secLine n) = none := rfl

theorem classifyLine_kvLine {k v : String} (hk : wfName k = true)
    (hv : wfValue v = true) : classifyLine (kvLine k v) = some (.kv k v) := by
  unfold classifyLine
  rw [if_neg (show kvLine k v ≠ [] from by
    unfold kvLine
    cases k.data <;> simp)]
  rw [parseKeyVal_kvLine hk hv]

theorem classifyLine_secLine {n : String} (hn : wfName n = true) :
    classifyLine (secLine n) = some (.sec n) := by
  unfold classifyLine
  rw [if_neg (show secLine n ≠ [] from by unfold secLine; simp)]
  rw [parseKeyVal_secLine, parseSec_secLine hn]

theorem classifyLines_append {xs ys : List (List Char)} {ts us : List TomlLine}
    (hx : classifyLines xs = some ts) (hy : classifyLines ys = some us) :
    classifyLines (xs ++ ys) = some (ts ++ us) := by
  induction xs generalizing ts with
  | nil =>
      rw [show classifyLines [] = some [] from rfl] at hx
      cases hx
      simpa using hy
  | cons l ls ih =>
      rw [classifyLines] at hx
      cases hcl : classifyLine l with
      | none => rw [hcl] at hx; cases hx
      | some t =>
          rw [hcl] at hx
          cases hcls : classifyLines ls with
          | none => rw [hcls] at hx; cases hx
          | some ts' =>
              rw [hcls] at hx
              cases hx
              rw [List.cons_append]
              simp [classifyLines, hcl, ih hcls]

theorem wfConfig_spec {c : Config} (h : wfConfig c = true) :
    c.profiles ≠ [] ∧ nodupB (keysOf c.profiles) = true
      ∧ (∀ kp ∈ c.profiles, kp.1 = kp.2.name ∧ wfName kp.1 = true
          ∧ wfValue kp.2.api_key = true ∧ wfValue kp.2.label = true)
      ∧ wfValue c.default_profile = true := by
  simp only [wfConfig, Bool.and_eq_true, Bool.not_eq_true', List.all_eq_true,
    decide_eq_true_eq] at h
  obtain ⟨⟨⟨hne, hnd⟩, hall⟩, hdv⟩ := h
  refine ⟨?_, hnd, ?_, hdv⟩
  · intro h0
    rw [h0] at hne
    exact absurd hne (by decide)
  · intro kp hkp
    obtain ⟨⟨⟨h1, h2⟩, h3⟩, h4⟩ := hall kp hkp
    exact ⟨h1, h2, h3, h4⟩

theorem kvLine_no_nl {k v : String}
    (hk : ∀ a ∈ k.data, isBareKeyChar a = true) (hv : wfValue v = true) :
    ∀ ch ∈ kvLine k v, ch ≠ '\n' := by
  simp only [kvLine, List.forall_mem_append, List.forall_mem_cons,
    List.forall_mem_singleton]
  exact ⟨fun a ha => bareKeyChar_ne_nl (hk a ha),
    by decide, by decide, by decide, by decide,
    fun a ha => tomlSafeChar_ne_nl (wfValue_all_safe hv a ha), by decide⟩

theorem secLine_no_nl {n : String} (hn : wfName n = true) :
    ∀ ch ∈ secLine n, ch ≠ '\n' := by
  intro ch hch heq
  subst heq
  simp only [secLine, List.mem_cons, List.mem_append] at hch
  rcases hch with h | (h | h) | h
  · exact absurd h (by decide)
  · exact absurd h (by decide)
  · exact absurd (wfName_all_bare hn _ h) (by decide)
  · exact absurd h (by simp)

theorem saveLines_no_nl {c : Config} (h : wfConfig c = true) :
    ∀ l ∈ saveLines c, ∀ ch ∈ l, ch ≠ '\n' := by
  obtain ⟨-, -, hall, hdv⟩ := wfConfig_spec h
  intro l hl
  simp only [saveLines, List.mem_cons, List.mem_flatMap] at hl
  rcases hl with rfl | rfl | ⟨kp, hkp, hpl⟩
  · exact kvLine_no_nl (by decide) hdv
  · simp
  · obtain ⟨-, hn, hkey, hlab⟩ := hall kp hkp
    by_cases hlb : kp.2.label = ""
    · simp [profileLines, hlb] at hpl
      rcases hpl with rfl | rfl | rfl
      · exact secLine_no_nl hn
      · exact kvLine_no_nl (by decide) hkey
      · simp
    · simp [profileLines, hlb] at hpl
      rcases hpl with rfl | rfl | rfl | rfl
      · exact secLine_no_nl hn
      · exact kvLine_no_nl (by decide) hkey
      · exact kvLine_no_nl (by decide) hlab
      · simp

theorem classifyLines_profileLines {n : String} {p : Profile}
    (hn : wfName n = true) (hkey : wfValue p.api_key = true)
    (hlab : wfValue p.label = true) :
    classifyLines (profileLines n p) = some (profileToks n p) := by
  by_cases hl : p.label = ""
  · simp [profileLines, profileToks, hl, classifyLines,
      classifyLine_secLine hn,
      classifyLine_kvLine (show wfName "api_key" = true from by decide) hkey,
      show classifyLine ([] : List Char) = some TomlLine.blank from rfl]
  · simp [profileLines, profileToks, hl, classifyLines,
      classifyLine_secLine hn,
      classifyLine_kvLine (show wfName "api_key" = true from by decide) hkey,
      classifyLine_kvLine (show wfName "label" = true from by decide) hlab,
      show classifyLine ([] : List Char) = some TomlLine.blank from rfl]

theorem classifyLines_flatMap_profileLines {ps : List (String × Profile)}
    (h : ∀ kp ∈ ps, wfName kp.1 = true ∧ wfValue kp.2.api_key = true
          ∧ wfValue kp.2.label = true) :
    classifyLines (ps.flatMap (fun kp => profileLines kp.1 kp.2))
      = some (ps.flatMap (fun kp => profileToks kp.1 kp.2)) := by
  induction ps with
  | nil => rfl
  | cons kp rest ih =>
      rw [List.flatMap_cons, List.flatMap_cons]
      obtain ⟨h1, h2, h3⟩ := h kp (by simp)
      exact classifyLines_append (classifyLines_profileLines h1 h2 h3)
        (ih (fun x hx => h x (by simp [hx])))

theorem classifyLines_saveLines {c : Config} (h : wfConfig c = true) :
    classifyLines (saveLines c)
      = some (.kv "default_profile" c.default_profile :: .blank ::
          c.profiles.flatMap (fun kp => profileToks kp.1 kp.2)) := by
  obtain ⟨-, -, hall, hdv⟩ := wfConfig_spec h
  have hfm := @classifyLines_flatMap_profileLines c.profiles
    (fun kp hkp => (hall kp hkp).2)
  simp [saveLines, classifyLines,
    classifyLine_kvLine (show wfName "default_profile" = true from by decide) hdv,
    show classifyLine ([] : List Char) = some TomlLine.blank from rfl, hfm]

theorem groupToml_flatMap_profileToks (ps : List (String × Profile)) :
    groupToml (ps.flatMap (fun kp => profileToks kp.1 kp.2)) = ([], secsOf ps) := by
  induction ps with
  | nil => rfl
  | cons kp rest ih =>
      by_cases hl : kp.2.label = ""
      · have hpt : profileToks kp.1 kp.2
            = [.sec kp.1, .kv "api_key" kp.2.api_key, .blank] := by
          simp [profileToks, hl]
        rw [List.flatMap_cons, hpt, List.cons_append, List.cons_append,
          List.singleton_append]
        rw [show secsOf (kp :: rest)
            = (kp.1, [("api_key", kp.2.api_key)]) :: secsOf rest from by
          simp [secsOf, hl]]
        simp [groupToml, ih]
      · have hpt : profileToks kp.1 kp.2
            = [.sec kp.1, .kv "api_key" kp.2.api_key,
               .kv "label" kp.2.label, .blank] := by
          simp [profileToks, hl]
        rw [List.flatMap_cons, hpt, List.cons_append, List.cons_append,
          List.cons_append, List.singleton_append]
        rw [show secsOf (kp :: rest)
            = (kp.1, [("api_key", kp.2.api_key), ("label", kp.2.label)])
                :: secsOf rest from by
          simp [secsOf, hl]]
        simp [groupToml, ih]

theorem secsOf_map_fst (ps : List (String × Profile)) :
    (secsOf ps).map Prod.fst = keysOf ps := by
  induction ps with
  | nil => rfl
  | cons kp rest ih => simp_all [secsOf, keysOf]

theorem parseToml_saveConfig {c : Config} (h : wfConfig c = true) :
    parseToml (saveConfig c)
      = some ⟨[("default_profile", c.default_profile)], secsOf c.profiles⟩ := by
  obtain ⟨hne, hnd, hall, hdv⟩ := wfConfig_spec h
  unfold parseToml saveConfig
  rw [show (String.mk (joinNl (saveLines c))).data = joinNl (saveLines c) from rfl]
  rw [splitOnNl_joinNl (by simp [saveLines]) (saveLines_no_nl h)]
  rw [classifyLines_saveLines h]
  have hc3 : (secsOf c.profiles).all (fun sc => nodupB (sc.2.map Prod.fst))
      = true := by
    rw [List.all_eq_true]
    intro sc hsc
    simp only [secsOf, List.mem_map] at hsc
    obtain ⟨kp, -, rfl⟩ := hsc
    by_cases hl : kp.2.label = "" <;> simp [hl, nodupB]
  simp only [groupToml, groupToml_flatMap_profileToks]
  rw [if_pos (by
    simp only [Bool.and_eq_true]
    refine ⟨⟨rfl, ?_⟩, hc3⟩
    rw [secsOf_map_fst]
    exact hnd)]

theorem buildProfiles_secsOf {ps : List (String × Profile)}
    (h : ∀ kp ∈ ps, kp.1 = kp.2.name) :
    buildProfiles (secsOf ps) = some ps := by
  induction ps with
  | nil => rfl
  | cons kp rest ih =>
      have hname := h kp (by simp)
      have ihr := ih (fun x hx => h x (by simp [hx]))
      obtain ⟨k, p⟩ := kp
      obtain ⟨pn, pk, pl⟩ := p
      simp only at hname
      subst hname
      by_cases hl : pl = ""
      · subst hl
        simp only [secsOf, List.map_cons] at ihr ⊢
        simp [buildProfiles, alistLookup, ihr]
      · simp only [secsOf, List.map_cons] at ihr ⊢
        simp [buildProfiles, alistLookup, hl, ihr]

/-- The reader inverts the writer on any well-formed registry. -/
theorem loadConfigStr_saveConfig {c : Config} (h : wfConfig c = true) :
    loadConfigStr (saveConfig c) = .ok c := by
  obtain ⟨hne, -, hall, -⟩ := wfConfig_spec h
  unfold loadConfigStr
  rw [parseToml_saveConfig h]
  simp only
  rw [buildProfiles_secsOf (fun kp hkp => (hall kp hkp).1)]
  cases hps : c.profiles with
  | nil => exact absurd hps hne
  | cons hd tl =>
      simp [alistLookup, ← hps]

theorem not_isEmpty_of_ne_nil {l : List Char} (h : l ≠ []) :
    (!l.isEmpty) = true := by
  cases l
  · exact absurd rfl h
  · rfl

theorem parseKeyVal_wf {l : List Char} {k v : String}
    (h : parseKeyVal l = some (k, v)) : wfName k = true ∧ wfValue v = true := by
  unfold parseKeyVal at h
  split at h
  · split at h
    · dsimp only at h
      split at h
      · rename_i hcond
        have hpair := Option.some.inj h
        obtain ⟨h1, h2⟩ := Prod.mk.injEq .. ▸ hpair
        subst h1
        subst h2
        refine ⟨?_, hcond.2⟩
        simp only [wfName, Bool.and_eq_true, List.all_eq_true]
        exact ⟨not_isEmpty_of_ne_nil hcond.1,
          fun a ha => List.mem_takeWhile_imp ha⟩
      · cases h
    · cases h
  · cases h

theorem parseSec_wf {l : List Char} {n : String}
    (h : parseSec l = some n) : wfName n = true := by
  unfold parseSec at h
  split at h
  · split at h
    · dsimp only at h
      split at h
      · rename_i hcond
        obtain h1 := Option.some.inj h
        subst h1
        simp only [wfName, Bool.and_eq_true, List.all_eq_true]
        exact ⟨not_isEmpty_of_ne_nil hcond.1,
          fun a ha => List.mem_takeWhile_imp ha⟩
      · cases h
    · cases h
  · cases h

theorem classifyLine_wf {l : List Char} {t : TomlLine}
    (h : classifyLine l = some t) : wfTok t = true := by
  unfold classifyLine at h
  split at h
  · cases Option.some.inj h
    rfl
  · split at h
    · rename_i k v hkv
      cases Option.some.inj h
      obtain ⟨h1, h2⟩ := parseKeyVal_wf hkv
      simp [wfTok, h1, h2]
    · split at h
      · rename_i n hsec
        cases Option.some.inj h
        simpa [wfTok] using parseSec_wf hsec
      · cases h

theorem classifyLines_wf {ls : List (List Char)} {ts : List TomlLine}
    (h : classifyLines ls = some ts) : ∀ t ∈ ts, wfTok t = true := by
  induction ls generalizing ts with
  | nil =>
      cases Option.some.inj h
      simp
  | cons l ls ih =>
      rw [classifyLines] at h
      cases hcl : classifyLine l with
      | none => rw [hcl] at h; cases h
      | some t0 =>
          rw [hcl] at h
          cases hcls : classifyLines ls with
          | none => rw [hcls] at h; cases h
          | some ts' =>
              rw [hcls] at h
              cases Option.some.inj h
              intro t ht
              rcases List.mem_cons.mp ht with rfl | ht'
              · exact classifyLine_wf hcl
              · exact ih hcls t ht'

theorem groupToml_wf {ts : List TomlLine} (h : ∀ t ∈ ts, wfTok t = true) :
    (∀ kv ∈ (groupToml ts).1, wfName kv.1 = true ∧ wfValue kv.2 = true)
      ∧ (∀ sc ∈ (groupToml ts).2, wfName sc.1 = true
          ∧ ∀ kv ∈ sc.2, wfName kv.1 = true ∧ wfValue kv.2 = true) := by
  induction ts with
  | nil => simp [groupToml]
  | cons t rest ih =>
      have ihr := ih (fun x hx => h x (by simp [hx]))
      cases t with
      | blank => simpa [groupToml] using ihr
      | kv k v =>
          have hw := h (.kv k v) (by simp)
          simp only [wfTok, Bool.and_eq_true] at hw
          simp only [groupToml]
          refine ⟨?_, ihr.2⟩
          intro kv' hkv'
          rcases List.mem_cons.mp hkv' with rfl | hkv''
          · exact hw
          · exact ihr.1 kv' hkv''
      | sec n =>
          have hw := h (.sec n) (by simp)
          simp only [wfTok] at hw
          simp only [groupToml]
          refine ⟨by simp, ?_⟩
          intro sc hsc
          rcases List.mem_cons.mp hsc with rfl | hsc'
          · exact ⟨hw, fun kv hkv => ihr.1 kv hkv⟩
          · exact ihr.2 sc hsc'

theorem alistLookup_mem {α : Type} {kvs : List (String × α)} {k : String}
    {v : α} (h : alistLookup kvs k = some v) : (k, v) ∈ kvs := by
  induction kvs with
  | nil => cases h
  | cons hd tl ih =>
      obtain ⟨k', v'⟩ := hd
      by_cases hk : k' = k
      · rw [alistLookup, if_pos hk] at h
        cases Option.some.inj h
        simp [hk]
      · rw [alistLookup, if_neg hk] at h
        exact List.mem_cons_of_mem _ (ih h)

theorem buildProfiles_wf {secs : List (String × List (String × String))}
    {ps : List (String × Profile)}
    (hs : ∀ sc ∈ secs, wfName sc.1 = true
      ∧ ∀ kv ∈ sc.2, wfName kv.1 = true ∧ wfValue kv.2 = true)
    (h : buildProfiles secs = some ps) :
    (∀ kp ∈ ps, kp.1 = kp.2.name ∧ wfName kp.1 = true
      ∧ wfValue kp.2.api_key = true ∧ wfValue kp.2.label = true)
      ∧ keysOf ps = secs.map Prod.fst := by
  induction secs generalizing ps with
  | nil =>
      cases Option.some.inj h
      simp [keysOf]
  | cons sc rest ih =>
      obtain ⟨n, kvs⟩ := sc
      rw [buildProfiles] at h
      cases hak : alistLookup kvs "api_key" with
      | none => rw [hak] at h; cases h
      | some key =>
          rw [hak] at h
          cases hbp : buildProfiles rest with
          | none => rw [hbp] at h; cases h
          | some ps' =>
              rw [hbp] at h
              cases Option.some.inj h
              obtain ⟨hrest, hkeys⟩ := ih (fun x hx => hs x (by simp [hx])) hbp
              obtain ⟨hn, hkvs⟩ := hs (n, kvs) (by simp)
              have hkeyv : wfValue key = true := (hkvs _ (alistLookup_mem hak)).2
              have hlabv : wfValue ((alistLookup kvs "label").getD "") = true := by
                cases hlab : alistLookup kvs "label" with
                | none => decide
                | some lv => exact (hkvs _ (alistLookup_mem hlab)).2
              constructor
              · intro kp hkp
                rcases List.mem_cons.mp hkp with rfl | hkp'
                · exact ⟨rfl, hn, hkeyv, hlabv⟩
                · exact hrest kp hkp'
              · simp [keysOf] at hkeys ⊢
                exact hkeys

theorem nodupB_of_cons {k : String} {ks : List String}
    (h : nodupB (k :: ks) = true) : nodupB ks = true := by
  simp only [nodupB, Bool.and_eq_true] at h
  exact h.2

theorem parseToml_wf {s : String} {raw : RawToml} (h : parseToml s = some raw) :
    (∀ sc ∈ raw.sections, wfName sc.1 = true
      ∧ ∀ kv ∈ sc.2, wfName kv.1 = true ∧ wfValue kv.2 = true)
      ∧ nodupB (raw.sections.map Prod.fst) = true
      ∧ (∀ kv ∈ raw.top, wfName kv.1 = true ∧ wfValue kv.2 = true) := by
  unfold parseToml at h
  cases hcl : classifyLines (splitOnNl s.data) with
  | none => rw [hcl] at h; cases h
  | some toks =>
      rw [hcl] at h
      have htoks := classifyLines_wf hcl
      have hgw := groupToml_wf htoks
      simp only at h
      split at h
      · rename_i hguard
        cases Option.some.inj h
        simp only [Bool.and_eq_true] at hguard
        exact ⟨hgw.2, hguard.1.2, hgw.1⟩
      · cases h

/-- A successfully loaded registry is well-formed: non-empty, distinct bare
names keyed by the profile's own name, inert values. -/
theorem loadConfigStr_wf {s : String} {c : Config}
    (h : loadConfigStr s = .ok c) : wfConfig c = true := by
  unfold loadConfigStr at h
  cases hp : parseToml s with
  | none => rw [hp] at h; simp at h
  | some raw =>
      rw [hp] at h
      simp only [] at h
      obtain ⟨hsecs, hnd, htop⟩ := parseToml_wf hp
      cases hb : buildProfiles raw.sections with
      | none => rw [hb] at h; simp at h
      | some ps =>
          rw [hb] at h
          obtain ⟨hps, hkeys⟩ := buildProfiles_wf hsecs hb
          cases ps with
          | nil => simp at h
          | cons hd tl =>
              obtain ⟨k0, p0⟩ := hd
              simp only [] at h
              cases h
              simp only [wfConfig, Bool.and_eq_true]
              refine ⟨⟨⟨by simp, ?_⟩, ?_⟩, ?_⟩
              · have hnd' : nodupB (keysOf ((k0, p0) :: tl)) = true := by
                  rw [hkeys]
                  exact hnd
                exact hnd'
              · rw [List.all_eq_true]
                intro kp hkp
                obtain ⟨h1, h2, h3, h4⟩ := hps kp hkp
                simp only [Bool.and_eq_true, decide_eq_true_eq]
                exact ⟨⟨⟨h1, h2⟩, h3⟩, h4⟩
              · cases hdl : alistLookup raw.top "default_profile" with
                | none =>
                    simp only [hdl, Option.getD_none]
                    exact wfName_wfValue ((hps (k0, p0) (by simp)).2.1)
                | some d =>
                    simp only [hdl, Option.getD_some]
                    exact (htop _ (alistLookup_mem hdl)).2

/-- Adjusting only the default to an inert value keeps a registry
well-formed. -/
theorem wfConfig_setDefault {c : Config} {d : String} (h : wfConfig c = true)
    (hd : wfValue d = true) : wfConfig ⟨c.profiles, d⟩ = true := by
  simp only [wfConfig, Bool.and_eq_true] at h ⊢
  exact ⟨h.1, hd⟩

/-- Claim **C10**: when `remove_profile` removes the profile that was the default
and at least one profile remains, the new default is exactly the first
remaining profile in the registry's insertion order (`next(iter(...))` on
the dict after deletion). -/
theorem c10_removeProfile_firstRemaining (f : Option String) (c : Config)
    (name : String) (c' : Config) (f' : Option String)
    (hload : loadConfigFS f = .ok c) (hdef : c.default_profile = name)
    (hrun : removeProfileFS f name = (.ok c', f'))
    (hne : c'.profiles ≠ []) :
    c'.profiles = alistErase c.profiles name
      ∧ firstKey c'.profiles = some c'.default_profile := by
  unfold removeProfileFS at hrun
  rw [hload] at hrun
  by_cases hmem : ((keysOf c.profiles).contains name : Bool)
  · simp only [hmem, if_true] at hrun
    obtain ⟨h1, -⟩ := Prod.mk.injEq .. ▸ hrun
    replace h1 : c' = ⟨alistErase c.profiles name,
        if c.default_profile = name then (firstKey (alistErase c.profiles name)).getD ""
        else c.default_profile⟩ := by
      cases h1
      rfl
    subst h1
    refine ⟨rfl, ?_⟩
    simp only at hne
    cases hps : alistErase c.profiles name with
    | nil => exact absurd hps hne
    | cons hd tl =>
      simp [hdef, hps, firstKey]
  · have hmem2 : ¬ name ∈ keysOf c.profiles := fun h => hmem (List.elem_iff.mpr h)
    simp [hmem2] at hrun

/-- Witness for **C10**: on a stored three-profile file with default `"b"`,
removing `"b"` makes `"a"` — the first remaining in insertion order — the
new default. -/
theorem c10_removeProfile_firstRemaining_witness :
    ([("a", Profile.mk "a" "k1" ""), ("c", Profile.mk "c" "k3" "")] : List (String × Profile))
        = alistErase [("a", Profile.mk "a" "k1" ""), ("b", Profile.mk "b" "k2" ""),
                      ("c", Profile.mk "c" "k3" "")] "b"
      ∧ firstKey [("a", Profile.mk "a" "k1" ""), ("c", Profile.mk "c" "k3" "")] = some "a" :=
  c10_removeProfile_firstRemaining
    (some (saveConfig ⟨[("a", Profile.mk "a" "k1" ""), ("b", Profile.mk "b" "k2" ""),
                        ("c", Profile.mk "c" "k3" "")], "b"⟩))
    ⟨[("a", Profile.mk "a" "k1" ""), ("b", Profile.mk "b" "k2" ""),
      ("c", Profile.mk "c" "k3" "")], "b"⟩
    "b"
    ⟨[("a", Profile.mk "a" "k1" ""), ("c", Profile.mk "c" "k3" "")], "a"⟩
    (some (saveConfig ⟨[("a", Profile.mk "a" "k1" ""), ("c", Profile.mk "c" "k3" "")], "a"⟩))
    (by decide) (by decide) (by decide) (by decide)

/-- Claim **C3 (amended)**: for every non-empty registry whose entries are keyed by
their profile's own name, whose names are non-empty bare TOML keys
(ASCII letters, digits, `_`, `-`) and distinct, and whose `api_key`, `label`
and `default_profile` strings contain no quote, backslash, or control
character, loading the file written by `save_config` returns the registry
unchanged — same profile names, api_keys, labels, and default. -/
theorem c3_roundTrip_amended (c : Config) (h : wfConfig c = true) :
    loadConfigFS (some (saveConfig c)) = .ok c :=
  loadConfigStr_saveConfig h

/-- Counterexample for **C3** as stated: a profile whose required fields are
non-empty but whose `api_key` contains a quote. `save_config` interpolates it
unescaped (`api_key = "a"b"`), which the TOML reader rejects, so
`load(save(R))` fails instead of returning `R`. -/
theorem c3_roundTrip_counterexample :
    ("work" : String) ≠ "" ∧ ("a\"b" : String) ≠ ""
      ∧ loadConfigFS
          (some (saveConfig ⟨[("work", Profile.mk "work" "a\"b" "")], "work"⟩))
          = .error .parseError
      ∧ loadConfigFS
          (some (saveConfig ⟨[("work", Profile.mk "work" "a\"b" "")], "work"⟩))
          ≠ .ok ⟨[("work", Profile.mk "work" "a\"b" "")], "work"⟩ := by
  refine ⟨by decide, by decide, by decide, by decide⟩

/-- Witness for **C3 (amended)**: a concrete two-profile registry (one with
a label, one without) round-trips exactly. -/
theorem c3_roundTrip_witness :
    loadConfigFS (some (saveConfig
        ⟨[("work", Profile.mk "work" "PMAK-123" "Work stuff"),
          ("personal", Profile.mk "personal" "PMAK-456" "")], "personal"⟩))
      = .ok ⟨[("work", Profile.mk "work" "PMAK-123" "Work stuff"),
              ("personal", Profile.mk "personal" "PMAK-456" "")], "personal"⟩ :=
  c3_roundTrip_amended
    ⟨[("work", Profile.mk "work" "PMAK-123" "Work stuff"),
      ("personal", Profile.mk "personal" "PMAK-456" "")], "personal"⟩
    (by decide)

/-- Claim **C7**: on a stored registry with profiles `"work"` and `"personal"` and
default `"work"`, `set_default_profile("personal")` persists a file that
reloads to the same profiles (all api_keys and labels unchanged) with default
`"personal"`; `set_default_profile` of an absent name fails with
profile-not-found carrying the available names and leaves the stored file
untouched. -/
theorem c7_setDefaultProfile_persist (f : Option String) (c : Config)
    (hload : loadConfigFS f = .ok c)
    (hkeys : keysOf c.profiles = ["work", "personal"])
    (hdef : c.default_profile = "work") :
    setDefaultProfileFS f "personal"
        = (.ok ⟨c.profiles, "personal"⟩,
           some (saveConfig ⟨c.profiles, "personal"⟩))
      ∧ loadConfigFS (some (saveConfig ⟨c.profiles, "personal"⟩))
          = .ok ⟨c.profiles, "personal"⟩
      ∧ ∀ name, ¬ name ∈ keysOf c.profiles →
          setDefaultProfileFS f name
            = (.error (.profileNotFound name (keysOf c.profiles)), f) := by
  have hwf : wfConfig c = true := by
    cases f with
    | none => simp [loadConfigFS] at hload
    | some s =>
        apply loadConfigStr_wf (s := s)
        simpa [loadConfigFS] using hload
  have hwf2 : wfConfig ⟨c.profiles, "personal"⟩ = true :=
    wfConfig_setDefault hwf (by decide)
  refine ⟨?_, loadConfigStr_saveConfig hwf2, ?_⟩
  · unfold setDefaultProfileFS
    rw [hload]
    simp only []
    rw [if_pos (show ((keysOf c.profiles).contains "personal") = true from by
      rw [hkeys]
      decide)]
  · intro name hnm
    unfold setDefaultProfileFS
    rw [hload]
    simp only []
    rw [if_neg (show ¬ ((keysOf c.profiles).contains name) = true from
      fun hmm => hnm (List.elem_iff.mp hmm))]

/-- Witness for **C7**: the concrete scenario, run end to end on the file
written by `save_config`. -/
theorem c7_setDefaultProfile_persist_witness :
    setDefaultProfileFS
        (some (saveConfig ⟨[("work", Profile.mk "work" "k1" ""),
                            ("personal", Profile.mk "personal" "k2" "")], "work"⟩))
        "personal"
      = (.ok ⟨[("work", Profile.mk "work" "k1" ""),
               ("personal", Profile.mk "personal" "k2" "")], "personal"⟩,
         some (saveConfig ⟨[("work", Profile.mk "work" "k1" ""),
                            ("personal", Profile.mk "personal" "k2" "")], "personal"⟩))
    ∧ loadConfigFS (some (saveConfig
          ⟨[("work", Profile.mk "work" "k1" ""),
            ("personal", Profile.mk "personal" "k2" "")], "personal"⟩))
        = .ok ⟨[("work", Profile.mk "work" "k1" ""),
                ("personal", Profile.mk "personal" "k2" "")], "personal"⟩ := by
  have h := c7_setDefaultProfile_persist
    (some (saveConfig ⟨[("work", Profile.mk "work" "k1" ""),
                        ("personal", Profile.mk "personal" "k2" "")], "work"⟩))
    ⟨[("work", Profile.mk "work" "k1" ""),
      ("personal", Profile.mk "personal" "k2" "")], "work"⟩
    (by decide) (by decide) (by decide)
  exact ⟨h.1, h.2.1⟩

/-- Claim **C9 (amended)**: in formatted output, every variable whose key contains
`"password"`, `"secret"`, `"token"` or `"key"` case-insensitively is
displayed as its first four characters followed by `"****"` when the stored
value is longer than four characters and as `"****"` otherwise (this differs
from the stored value except when the stored value already has exactly that
masked shape); JSON mode outputs the environment with all values unmasked. -/
theorem c9_masking_amended (env : Environment) (i : Nat) (var : EnvVar)
    (hv : env.values.get? i = some var) (hs : sensitiveKey var.key = true) :
    (∃ rows, environmentsShow false env = .tableOut rows
        ∧ rows.get? i = some (var.key, var.vtype,
            if 4 < var.value.data.length
            then String.mk (var.value.data.take 4) ++ "****" else "****"))
      ∧ environmentsShow true env = .jsonOut env := by
  refine ⟨⟨_, rfl, ?_⟩, rfl⟩
  rw [List.get?_eq_getElem?] at hv
  rw [List.get?_eq_getElem?, List.getElem?_map, hv]
  simp [displayValue, hs, maskValue]

/-- Counterexample for **C9** as stated ("the displayed value is never the
stored value"): a sensitive variable whose stored value is already `"****"`
is displayed as `"****"`, i.e. exactly the stored value. -/
theorem c9_masking_counterexample :
    sensitiveKey "api_token" = true
      ∧ displayValue ⟨"api_token", "****", "default"⟩
          = EnvVar.value ⟨"api_token", "****", "default"⟩ :=
  ⟨by decide, by decide⟩

/-- Witness for **C9 (amended)**: a `db_password` variable with a 13-character
value is shown as its first four characters plus `"****"` in formatted mode
and unmasked in JSON mode. -/
theorem c9_masking_witness :
    (∃ rows,
        environmentsShow false
            ⟨"e1", "Prod", [⟨"db_password", "hunter2secret", "secret"⟩]⟩
          = .tableOut rows
        ∧ rows.get? 0 = some ("db_password", "secret", "hunt****"))
      ∧ environmentsShow true
            ⟨"e1", "Prod", [⟨"db_password", "hunter2secret", "secret"⟩]⟩
          = .jsonOut ⟨"e1", "Prod", [⟨"db_password", "hunter2secret", "secret"⟩]⟩ := by
  have h := c9_masking_amended
    ⟨"e1", "Prod", [⟨"db_password", "hunter2secret", "secret"⟩]⟩ 0
    ⟨"db_password", "hunter2secret", "secret"⟩ (by decide) (by decide)
  obtain ⟨⟨rows, h1, h2⟩, h3⟩ := h
  exact ⟨⟨rows, h1, by simpa using h2⟩, h3⟩

theorem alistLookup_map_update (ps : List (String × WProfile))
    (target k wid : String) :
    alistLookup (ps.map (updateEntry target wid)) k
      = if k = target
        then (alistLookup ps k).map
            (fun p => WProfile.mk p.name p.api_key p.label wid)
        else alistLookup ps k := by
  induction ps with
  | nil => by_cases hk : k = target <;> simp [alistLookup, hk]
  | cons hd tl ih =>
      obtain ⟨k', v'⟩ := hd
      rw [List.map_cons]
      by_cases h1 : k' = target
      · rw [show updateEntry target wid (k', v')
            = (k', WProfile.mk v'.name v'.api_key v'.label wid) from by
          simp [updateEntry, h1]]
        by_cases h2 : k' = k
        · subst h2
          rw [alistLookup, if_pos rfl, alistLookup, if_pos rfl, if_pos h1]
          rfl
        · rw [alistLookup, if_neg h2, alistLookup, if_neg h2, ih]
      · rw [show updateEntry target wid (k', v') = (k', v') from by
          simp [updateEntry, h1]]
        by_cases h2 : k' = k
        · subst h2
          have hkt : ¬ k' = target := h1
          rw [alistLookup, if_pos rfl, alistLookup, if_pos rfl, if_neg hkt]
        · rw [alistLookup, if_neg h2, alistLookup, if_neg h2, ih]

/-- Claim **C8**: every profile of the (spec-modelled) workspace-carrying registry
has a `workspace` (default workspace) field alongside name, api_key and
label, and `set_profile_workspace` updates exactly that field of the named
(or, for an empty/absent name, the default) profile in the registry it
persists: the target's workspace becomes the given id with its other fields
intact, every other entry is untouched, and the default is unchanged. -/
theorem c8_setProfileWorkspace (stored : WConfig) (name workspaceId : String)
    (c' : WConfig)
    (hrun : setProfileWorkspace stored name workspaceId = .ok c') :
    (∀ p, alistLookup stored.profiles
          (if name = "" then stored.default_profile else name) = some p →
        alistLookup c'.profiles
            (if name = "" then stored.default_profile else name)
          = some ⟨p.name, p.api_key, p.label, workspaceId⟩)
      ∧ (∀ k, k ≠ (if name = "" then stored.default_profile else name) →
          alistLookup c'.profiles k = alistLookup stored.profiles k)
      ∧ c'.default_profile = stored.default_profile := by
  unfold setProfileWorkspace at hrun
  dsimp only at hrun
  cases hl : alistLookup stored.profiles
      (if name = "" then stored.default_profile else name) with
  | none => rw [hl] at hrun; cases hrun
  | some p0 =>
      rw [hl] at hrun
      cases hrun
      refine ⟨?_, ?_, rfl⟩
      · intro p hp
        cases Option.some.inj hp
        simp [alistLookup_map_update, hl]
      · intro k hk
        simp [alistLookup_map_update, hk]

/-- Witness for **C8**: with profiles `"work"` (default) and `"personal"`
stored, `set-workspace` with no `--profile` flag (empty name) updates the
default profile's workspace and leaves `"personal"` untouched. -/
theorem c8_setProfileWorkspace_witness :
    alistLookup
        [("work", WProfile.mk "work" "k1" "" "ws-new"),
         ("personal", WProfile.mk "personal" "k2" "" "ws-old")] "work"
      = some (WProfile.mk "work" "k1" "" "ws-new")
    ∧ alistLookup
        [("work", WProfile.mk "work" "k1" "" "ws-new"),
         ("personal", WProfile.mk "personal" "k2" "" "ws-old")] "personal"
      = alistLookup
        [("work", WProfile.mk "work" "k1" "" "ws-old"),
         ("personal", WProfile.mk "personal" "k2" "" "ws-old")] "personal" := by
  have h := c8_setProfileWorkspace
    ⟨[("work", WProfile.mk "work" "k1" "" "ws-old"),
      ("personal", WProfile.mk "personal" "k2" "" "ws-old")], "work"⟩
    "" "ws-new"
    ⟨[("work", WProfile.mk "work" "k1" "" "ws-new"),
      ("personal", WProfile.mk "personal" "k2" "" "ws-old")], "work"⟩
    (by decide)
  constructor
  · have h1 := h.1 (WProfile.mk "work" "k1" "" "ws-old") (by decide)
    simpa using h1
  · have h2 := h.2.1 "personal" (by decide)
    simpa using h2

end Pmctl
